import Mathlib

/-!
Verification development for the PodcastDashboardLocal pipeline.

Shallow embedding of the pure logic of the four scripts:

* `update_podcast_details.py` — title resolution (`search_byterm`,
  `search_bytitle`, `search_podcast_combined`), episode statistics
  (`get_latest_episode_info`) and the per-podcast database writes of
  `update_all_podcast_details`;
* `scrape_apple_top100.py` / `scrape_spotify_top100.py` — chart fetchers and
  the shared `save_chart_data_to_db` writer;
* `update_gsheet.py` — the per-tab spreadsheet publishing loop.

HTTP transport is abstracted as an explicit outcome value handed to each
function (the Python code catches every transport/JSON error and turns it
into an empty/None result, which the embedding represents by the
corresponding outcome constructors).  The difflib similarity metric is an
explicit rational-valued parameter of the resolver: no claim depends on the
numeric value of a particular ratio, only on how the code compares ratios
against each other and against the acceptance threshold.
-/

namespace PodcastDashboard

/-! ### Title resolution (`update_podcast_details.py`, lines 76-207) -/

/-- Python `s.strip()`: drop leading and trailing whitespace.  Modelled at the
character-list level (ASCII whitespace; the claims do not exercise the extra
Unicode whitespace classes Python also strips). -/
def pyStrip (s : String) : String :=
  ⟨((s.data.dropWhile Char.isWhitespace).reverse.dropWhile Char.isWhitespace).reverse⟩

/-- Python `s.lower()`, modelled per character. -/
def pyLower (s : String) : String :=
  ⟨s.data.map Char.toLower⟩

/-- Normalisation applied to both query and candidate titles:
`s.strip().lower()` in the Python source. -/
def normStr (s : String) : String :=
  pyLower (pyStrip s)

/-- A search candidate as returned by the directory API.  Only the two title
fields matter to the resolver; `none` models an absent (or JSON-null) key. -/
structure Candidate where
  title_original : Option String
  title : Option String
deriving DecidableEq

/-- Python `res.get(key, "")` for an optional string field. -/
def orEmpty (o : Option String) : String :=
  o.getD ""

/-- The candidate title used by `search_byterm` (line 94):
`res.get("title_original", "") or res.get("title", "")`. -/
def bytermTitle (c : Candidate) : String :=
  if orEmpty c.title_original = "" then orEmpty c.title else orEmpty c.title_original

/-- The candidate title used by `search_bytitle` (line 153): `feed.get("title", "")`. -/
def bytitleTitle (c : Candidate) : String :=
  orEmpty c.title

/-- Fuzzy-match acceptance threshold, `SEARCH_ACCEPTANCE_THRESHOLD = 0.90`. -/
def SEARCH_ACCEPTANCE_THRESHOLD : ℚ := 9 / 10

/-- The candidate scan loop shared by both search functions
(lines 93-111 and 152-170): skip candidates with an empty title, short-circuit
on a trimmed case-insensitive exact match with ratio `1.0`, otherwise keep the
candidate with the strictly largest ratio seen so far (starting from
`best_match = None`, `best_ratio = 0`). -/
def scanCandidates (ratio : String → String → ℚ) (getT : Candidate → String)
    (qls : String) (best : Option Candidate) (bestR : ℚ) :
    List Candidate → Option Candidate × ℚ
  | [] => (best, bestR)
  | c :: cs =>
    let t := getT c
    if t = "" then scanCandidates ratio getT qls best bestR cs
    else if qls = normStr t then (some c, 1)
    else
      let r := ratio qls (normStr t)
      if bestR < r then scanCandidates ratio getT qls (some c) r cs
      else scanCandidates ratio getT qls best bestR cs

/-- The shared resolution procedure (lines 88-121 / 147-180): scan the
candidate list, then accept the best match only if one exists and its ratio
meets `SEARCH_ACCEPTANCE_THRESHOLD`; an empty candidate list yields `none`. -/
def resolveCandidates (ratio : String → String → ℚ) (getT : Candidate → String)
    (q : String) (results : List Candidate) : Option Candidate :=
  if results.isEmpty then none
  else
    let br := scanCandidates ratio getT (normStr q) none 0 results
    if br.1.isSome = true ∧ SEARCH_ACCEPTANCE_THRESHOLD ≤ br.2 then br.1 else none

/-- `search_byterm` (lines 76-133), with the HTTP layer abstracted: `results`
is the parsed `feeds`-or-`results` list of the response, and every
transport/JSON failure path of the source returns `None` just like an empty
candidate list does. -/
def search_byterm (ratio : String → String → ℚ) (q : String)
    (results : List Candidate) : Option Candidate :=
  resolveCandidates ratio bytermTitle q results

/-- `search_bytitle` (lines 135-192); identical to `search_byterm` except that
candidates are the `feeds` list and the title is read from the `title` key only. -/
def search_bytitle (ratio : String → String → ℚ) (q : String)
    (feeds : List Candidate) : Option Candidate :=
  resolveCandidates ratio bytitleTitle q feeds

/-- `search_podcast_combined` (lines 194-207): try `search_byterm`; on a falsy
result fall back to `search_bytitle`.  (A returned candidate is a non-empty
dict, so Python falsiness coincides with `None`.) -/
def search_podcast_combined (ratio : String → String → ℚ) (q : String)
    (bytermResults bytitleFeeds : List Candidate) : Option Candidate :=
  match search_byterm ratio q bytermResults with
  | some r => some r
  | none => search_bytitle ratio q bytitleFeeds

/-- If the first exact match in the candidate list has a non-empty title, the
scan loop returns it with ratio `1`, whatever the accumulator holds and
whatever candidates follow it. -/
lemma scan_exact_first (ratio : String → String → ℚ) (getT : Candidate → String)
    (qls : String) (pre : List Candidate) (c : Candidate) (post : List Candidate)
    (hc : getT c ≠ "") (hq : qls = normStr (getT c))
    (hpre : ∀ c' ∈ pre, getT c' = "" ∨ qls ≠ normStr (getT c')) :
    ∀ (best : Option Candidate) (bestR : ℚ),
      scanCandidates ratio getT qls best bestR (pre ++ c :: post) = (some c, 1) := by
  induction pre with
  | nil =>
    intro best bestR
    simp only [List.nil_append, scanCandidates]
    rw [if_neg hc, if_pos hq]
  | cons a pre ih =>
    intro best bestR
    have ha := hpre a (by simp)
    have hpre' : ∀ c' ∈ pre, getT c' = "" ∨ qls ≠ normStr (getT c') :=
      fun c' h => hpre c' (by simp [h])
    simp only [List.cons_append, scanCandidates]
    by_cases hae : getT a = ""
    · rw [if_pos hae]; exact ih hpre' _ _
    · have h2 : qls ≠ normStr (getT a) := ha.resolve_left hae
      rw [if_neg hae, if_neg h2]
      split
      · exact ih hpre' _ _
      · exact ih hpre' _ _

/-- A list of the form `pre ++ c :: post` is not empty. -/
lemma append_cons_not_isEmpty (pre : List Candidate) (c : Candidate) (post : List Candidate) :
    (pre ++ c :: post).isEmpty = false := by
  cases pre <;> simp [List.isEmpty]

/-- Claim C1 (amended): if some candidate whose title text is non-empty
normalises (trim + lowercase) to exactly the normalised query, `search_byterm`
returns the first such candidate, the internal scan assigns it ratio `1`, and
the candidates after it are never consulted (the statement holds for every
`post` and every ratio function). -/
theorem search_byterm_exact_match_short_circuit
    (ratio : String → String → ℚ) (q : String) (pre : List Candidate) (c : Candidate)
    (post : List Candidate)
    (hc : bytermTitle c ≠ "")
    (hmatch : normStr (bytermTitle c) = normStr q)
    (hfirst : ∀ c' ∈ pre, bytermTitle c' = "" ∨ normStr (bytermTitle c') ≠ normStr q) :
    search_byterm ratio q (pre ++ c :: post) = some c ∧
      scanCandidates ratio bytermTitle (normStr q) none 0 (pre ++ c :: post) = (some c, 1) := by
  have hpre : ∀ c' ∈ pre, bytermTitle c' = "" ∨ normStr q ≠ normStr (bytermTitle c') :=
    fun c' h => (hfirst c' h).imp id Ne.symm
  have hscan := scan_exact_first ratio bytermTitle (normStr q) pre c post hc hmatch.symm hpre none 0
  refine ⟨?_, hscan⟩
  unfold search_byterm resolveCandidates
  rw [append_cons_not_isEmpty]
  simp only [Bool.false_eq_true, if_false, hscan]
  rw [if_pos]
  exact ⟨rfl, by norm_num [SEARCH_ACCEPTANCE_THRESHOLD]⟩

/-- Witness for `search_byterm_exact_match_short_circuit` at a concrete input:
the case/whitespace-insensitive exact match in the middle of the list is
returned even though other candidates surround it. -/
theorem search_byterm_exact_match_short_circuit_witness :
    search_byterm (fun _ _ => 0) "The Daily"
        ([Candidate.mk (some "Daily Show") none] ++
          Candidate.mk (some " the daily ") none ::
            [Candidate.mk (some "The Daily Extra") none]) =
      some (Candidate.mk (some " the daily ") none) :=
  (search_byterm_exact_match_short_circuit (fun _ _ => 0) "The Daily"
      [Candidate.mk (some "Daily Show") none] (Candidate.mk (some " the daily ") none)
      [Candidate.mk (some "The Daily Extra") none]
      (by decide) (by decide) (by decide)).1

/-- Claim C1 as stated is false at a degenerate input: with query `""` and a
single candidate whose `title` field is the empty string, the candidate's
trimmed lowercased title equals the trimmed lowercased query, yet the code
skips empty candidate titles (`if not candidate_title: continue`) and the
resolver returns `none` instead of that candidate with ratio `1.0`. -/
theorem search_byterm_empty_title_counterexample :
    normStr (orEmpty (Candidate.mk none (some "")).title) = normStr "" ∧
      search_byterm (fun _ _ => 0) "" [Candidate.mk none (some "")] = none := by
  exact ⟨rfl, by decide⟩

/-- With an accumulator ratio below the threshold and every candidate neither
an exact match nor reaching the threshold, the scan loop's final best ratio
stays below the threshold. -/
lemma scan_below_threshold (ratio : String → String → ℚ) (getT : Candidate → String)
    (qls : String) :
    ∀ (cands : List Candidate) (best : Option Candidate) (bestR : ℚ),
      bestR < SEARCH_ACCEPTANCE_THRESHOLD →
      (∀ c ∈ cands, qls ≠ normStr (getT c) ∧
        ratio qls (normStr (getT c)) < SEARCH_ACCEPTANCE_THRESHOLD) →
      (scanCandidates ratio getT qls best bestR cands).2 < SEARCH_ACCEPTANCE_THRESHOLD := by
  intro cands
  induction cands with
  | nil => intro best bestR h _; simpa [scanCandidates] using h
  | cons a cs ih =>
    intro best bestR h hall
    have ha := hall a (by simp)
    simp only [scanCandidates]
    by_cases hae : getT a = ""
    · rw [if_pos hae]; exact ih _ _ h (fun c hc => hall c (by simp [hc]))
    · rw [if_neg hae, if_neg ha.1]
      split
      · exact ih _ _ ha.2 (fun c hc => hall c (by simp [hc]))
      · exact ih _ _ h (fun c hc => hall c (by simp [hc]))

/-- Claim C2: when no by-term candidate is an exact match and all their ratios
are strictly below `0.90`, the by-term phase returns `none`, the combined
resolver's answer is exactly the by-title search's answer, and the by-title
search is the same resolution procedure (same scan, same
`SEARCH_ACCEPTANCE_THRESHOLD`) applied to the by-title candidate list. -/
theorem search_combined_fallback_below_threshold
    (ratio : String → String → ℚ) (q : String)
    (bytermResults bytitleFeeds : List Candidate)
    (hall : ∀ c ∈ bytermResults,
      normStr (bytermTitle c) ≠ normStr q ∧
      ratio (normStr q) (normStr (bytermTitle c)) < SEARCH_ACCEPTANCE_THRESHOLD) :
    search_byterm ratio q bytermResults = none ∧
      search_podcast_combined ratio q bytermResults bytitleFeeds =
        search_bytitle ratio q bytitleFeeds ∧
      search_bytitle ratio q bytitleFeeds =
        resolveCandidates ratio bytitleTitle q bytitleFeeds ∧
      SEARCH_ACCEPTANCE_THRESHOLD = 9 / 10 := by
  have hnone : search_byterm ratio q bytermResults = none := by
    unfold search_byterm resolveCandidates
    split
    · rfl
    · have hb := scan_below_threshold ratio bytermTitle (normStr q) bytermResults none 0
        (by norm_num [SEARCH_ACCEPTANCE_THRESHOLD])
        (fun c hc => ⟨(hall c hc).1.symm, (hall c hc).2⟩)
      rw [if_neg]
      rintro ⟨-, h2⟩
      exact absurd h2 (not_le.mpr hb)
  refine ⟨hnone, ?_, rfl, rfl⟩
  unfold search_podcast_combined
  rw [hnone]

/-- Witness for `search_combined_fallback_below_threshold` at a concrete input:
the lone by-term candidate is unrelated to the query, so the combined search
falls through to the by-title phase (which here finds an exact match). -/
theorem search_combined_fallback_below_threshold_witness :
    search_byterm (fun _ _ => 0) "abc" [Candidate.mk (some "xyz") none] = none ∧
      search_podcast_combined (fun _ _ => 0) "abc"
          [Candidate.mk (some "xyz") none] [Candidate.mk none (some "abc")] =
        search_bytitle (fun _ _ => 0) "abc" [Candidate.mk none (some "abc")] ∧
      search_bytitle (fun _ _ => 0) "abc" [Candidate.mk none (some "abc")] =
        resolveCandidates (fun _ _ => 0) bytitleTitle "abc"
          [Candidate.mk none (some "abc")] ∧
      SEARCH_ACCEPTANCE_THRESHOLD = 9 / 10 :=
  search_combined_fallback_below_threshold (fun _ _ => 0) "abc"
    [Candidate.mk (some "xyz") none] [Candidate.mk none (some "abc")]
    (by
      intro c hc
      simp only [List.mem_singleton] at hc
      subst hc
      exact ⟨by decide, by norm_num [SEARCH_ACCEPTANCE_THRESHOLD]⟩)

/-! ### Episode statistics (`update_podcast_details.py`, lines 271-328) -/

/-- One episode of the `episodes/byfeedid` response.  `duration = none` covers
an absent key, a JSON null, or a non-integer value, all of which fail the
`isinstance(duration, int)` guard in the source. -/
structure Episode where
  title : Option String
  duration : Option Int
deriving DecidableEq

/-- The durations that pass the guard of line 305,
`if duration and isinstance(duration, int) and duration > 0:` — exactly the
positive integer durations. -/
def validDurations (items : List Episode) : List ℕ :=
  items.filterMap fun e =>
    match e.duration with
    | some d => if 0 < d then some d.toNat else none
    | none => none

/-- The pure core of `get_latest_episode_info`: from the fetched episode list,
the truncated average of the positive integer durations (`int(total/count)`,
line 310) and the title of the first episode.  An empty list returns
`(none, none)` (line 296); the HTTP/JSON failure paths of the source, which
also return `(None, None)`, are abstracted away. -/
def get_latest_episode_info (items : List Episode) : Option ℕ × Option String :=
  if items.isEmpty then (none, none)
  else
    let ds := validDurations items
    (if 0 < ds.length then some (ds.sum / ds.length) else none,
      items.head?.bind Episode.title)

/-- Claim C5 (amended): `avg_duration_last_10` is `none` when no episode has a
positive integer duration, and otherwise is the floor of the arithmetic mean
of the positive integer durations (the code truncates `total/count` with
`int(...)`, which is the floor for the non-negative values involved). -/
theorem avg_duration_floor_mean (items : List Episode) :
    (validDurations items = [] → (get_latest_episode_info items).1 = none) ∧
      (validDurations items ≠ [] →
        (get_latest_episode_info items).1 =
          some (Nat.floor (((validDurations items).sum : ℚ) / ((validDurations items).length : ℚ)))) := by
  constructor
  · intro h
    unfold get_latest_episode_info
    split
    · rfl
    · simp [h]
  · intro h
    have hne : items.isEmpty = false := by
      cases hi : items with
      | nil => exact absurd (by simp [validDurations, hi]) h
      | cons a l => rfl
    have hlen : 0 < (validDurations items).length := List.length_pos.mpr h
    unfold get_latest_episode_info
    rw [hne]
    simp only [Bool.false_eq_true, if_false, hlen, if_pos]
    rw [Nat.floor_div_nat, Nat.floor_natCast]

/-- Witness for `avg_duration_floor_mean`: the spec's own example list
`[{duration:100},{duration:0},{duration:200}]` has valid durations
`[100, 200]` and average `150`, and `[{duration:0}]` has none. -/
theorem avg_duration_floor_mean_witness :
    (validDurations [Episode.mk none (some 100), Episode.mk none (some 0),
        Episode.mk none (some 200)] ≠ [] ∧
      (get_latest_episode_info [Episode.mk none (some 100), Episode.mk none (some 0),
          Episode.mk none (some 200)]).1 =
        some (Nat.floor (((validDurations [Episode.mk none (some 100), Episode.mk none (some 0),
            Episode.mk none (some 200)]).sum : ℚ) /
          ((validDurations [Episode.mk none (some 100), Episode.mk none (some 0),
            Episode.mk none (some 200)]).length : ℚ)))) ∧
    (validDurations [Episode.mk none (some 0)] = [] ∧
      (get_latest_episode_info [Episode.mk none (some 0)]).1 = none) ∧
    (get_latest_episode_info [Episode.mk none (some 100), Episode.mk none (some 0),
        Episode.mk none (some 200)]).1 = some 150 :=
  ⟨⟨by decide,
      (avg_duration_floor_mean [Episode.mk none (some 100), Episode.mk none (some 0),
        Episode.mk none (some 200)]).2 (by decide)⟩,
    ⟨by decide,
      (avg_duration_floor_mean [Episode.mk none (some 0)]).1 (by decide)⟩,
    by decide⟩

/-- Claim C5 as stated is false on the episode list `[{duration:1},{duration:2}]`:
the code computes `int(3/2) = 1`, but the arithmetic mean of the positive
durations is `3/2 ≠ 1`. -/
theorem avg_duration_truncation_counterexample :
    (get_latest_episode_info [Episode.mk none (some 1), Episode.mk none (some 2)]).1 = some 1 ∧
      ((1 : ℚ) ≠ ((1 : ℚ) + 2) / 2) :=
  ⟨by decide, by norm_num⟩

/-! ### JSON values and chart fetchers (`scrape_apple_top100.py`, `scrape_spotify_top100.py`) -/

/-- A parsed JSON value (the result of `response.json()`).  Floats never reach
the logic the claims are about, so they are omitted. -/
inductive PyVal where
  | pNull
  | pBool (b : Bool)
  | pInt (n : Int)
  | pStr (s : String)
  | pList (xs : List PyVal)
  | pDict (fields : List (String × PyVal))

/-- Python `d.get(k)` on a dict, `None` when the key is absent. -/
def lookupField (fields : List (String × PyVal)) (k : String) : Option PyVal :=
  (fields.find? fun p => p.1 == k).map fun p => p.2

/-- Python truthiness of a JSON value. -/
def truthy : PyVal → Bool
  | .pNull => false
  | .pBool b => b
  | .pInt n => n != 0
  | .pStr s => s != ""
  | .pList xs => !xs.isEmpty
  | .pDict fs => !fs.isEmpty

/-- Whether a JSON value is a dict (`isinstance(x, dict)`). -/
def isDictB : PyVal → Bool
  | .pDict _ => true
  | _ => false

/-- Outcome of one HTTP fetch, as the fetchers observe it: a timeout, any
other request failure (including the non-2xx statuses surfaced by
`raise_for_status()`), a JSON decoding failure, or a parsed body. -/
inductive FetchOutcome where
  | timeout
  | requestError
  | jsonError
  | ok (data : PyVal)

/-- Python list slicing `xs[:limit]` for an `int` limit: a non-negative limit
takes at most `limit` items, a negative limit drops `-limit` items from the
end (clipped at zero). -/
def pyTake (limit : Int) {α : Type} (xs : List α) : List α :=
  if 0 ≤ limit then xs.take limit.toNat
  else xs.take ((xs.length : Int) + limit).toNat

/-- One normalized chart record, the dict built at lines 86-92 (Apple) and
75-82 (Spotify).  `title` and `platform_podcast_id` hold whatever JSON value
`.get` produced (`none` for an absent key / computed `None`). -/
structure ChartRecord where
  platform : String
  rank : Int
  title : Option PyVal
  platform_podcast_id : Option PyVal
  date : String

/-- The structure checks of `scrape_apple_top_podcasts` (lines 66-76): the
body must be a dict (otherwise `data.get` raises and the catch-all returns
`[]`), its `feed` must be a truthy dict, and `feed["results"]` must be a
truthy list.  Returns the results list when all checks pass. -/
def appleResults (data : PyVal) : Option (List PyVal) :=
  match data with
  | .pDict top =>
    match lookupField top "feed" with
    | some (.pDict fs) =>
      if fs.isEmpty then none
      else
        match lookupField fs "results" with
        | some (.pList xs) => if xs.isEmpty then none else some xs
        | _ => none
    | _ => none
  | _ => none

/-- The record-building loop of `scrape_apple_top_podcasts` (lines 81-92):
`enumerate` the sliced results, skip non-dict items (rank positions are not
re-used), and build a record with rank `i + 1`. -/
def buildAppleRecords (today : String) : ℕ → List PyVal → List ChartRecord
  | _, [] => []
  | i, v :: vs =>
    match v with
    | .pDict fs =>
      { platform := "Apple", rank := (i : Int) + 1, title := lookupField fs "name",
        platform_podcast_id := lookupField fs "id", date := today } ::
        buildAppleRecords today (i + 1) vs
    | _ => buildAppleRecords today (i + 1) vs

/-- `scrape_apple_top_podcasts` (lines 43-108) over an explicit fetch outcome;
the `region` argument only selects the URL and is omitted.  Every failure
branch of the source returns `[]`. -/
def scrape_apple_top_podcasts (limit : Int) (today : String) (o : FetchOutcome) :
    List ChartRecord :=
  match o with
  | .ok data =>
    match appleResults data with
    | some xs => buildAppleRecords today 0 (pyTake limit xs)
    | none => []
  | _ => []

/-- Python `s.split(":")` on the character list of `s`: split at every colon,
keeping empty segments; the result is always non-empty. -/
def pySplitColon : List Char → List (List Char)
  | [] => [[]]
  | c :: cs =>
    if c = ':' then [] :: pySplitColon cs
    else
      match pySplitColon cs with
      | [] => [[c]]
      | g :: gs => (c :: g) :: gs

/-- Python `show_uri.split(":")[-1]`. -/
def lastAfterSplit (u : String) : String :=
  ⟨(pySplitColon u.data).getLastD []⟩

/-- The `platform_podcast_id` expression of `scrape_spotify_top100` (line 73):
`show_uri.split(":")[-1] if show_uri and ':' in show_uri else None`, evaluated
on the raw JSON value of `showUri` (default `""`).  A truthy value for which
`':' in show_uri` or `.split` raises (`int`/`bool` operands, or a
list/dict that contains `":"`) is an exception, which the enclosing
`except Exception` turns into an empty result list. -/
def spotifyPid (uriV : PyVal) : Except Unit (Option String) :=
  if truthy uriV then
    match uriV with
    | .pStr u =>
      if u.data.contains ':' then .ok (some (lastAfterSplit u)) else .ok none
    | .pList xs =>
      if xs.any (fun v => match v with | .pStr s => s == ":" | _ => false) then .error ()
      else .ok none
    | .pDict fs =>
      if fs.any (fun p => p.1 == ":") then .error () else .ok none
    | _ => .error ()
  else .ok none

/-- The record-building loop of `scrape_spotify_top100` (lines 67-82): skip
non-dict items, otherwise compute the platform podcast id from `showUri`; an
exception aborts the loop (and the caller returns `[]`). -/
def buildSpotifyRecords (today : String) : ℕ → List PyVal → Except Unit (List ChartRecord)
  | _, [] => .ok []
  | i, v :: vs =>
    match v with
    | .pDict fs =>
      match spotifyPid ((lookupField fs "showUri").getD (.pStr "")) with
      | .error e => .error e
      | .ok pid =>
        match buildSpotifyRecords today (i + 1) vs with
        | .error e => .error e
        | .ok rest =>
          .ok ({ platform := "Spotify", rank := (i : Int) + 1,
                 title := lookupField fs "showName",
                 platform_podcast_id := pid.map .pStr, date := today } :: rest)
    | _ => buildSpotifyRecords today (i + 1) vs

/-- `scrape_spotify_top100` (lines 40-98) over an explicit fetch outcome: the
body must be a list (line 60), at most the first 100 items are processed, and
every failure branch — including an exception inside the loop — returns `[]`. -/
def scrape_spotify_top100 (today : String) (o : FetchOutcome) : List ChartRecord :=
  match o with
  | .ok (.pList items) =>
    match buildSpotifyRecords today 0 (pyTake 100 items) with
    | .ok recs => recs
    | .error _ => []
  | _ => []

/-! ### Chart store writer (`save_chart_data_to_db`, identical in both scrapers) -/

/-- One row of the `Top100Lists` table; `rowId` is the autoincrement key. -/
structure Top100Row where
  rowId : ℕ
  platform : String
  rank : Int
  title : Option PyVal
  platform_podcast_id : Option PyVal
  date : String

/-- The `Top100Lists` table plus the next autoincrement id. -/
structure Top100Table where
  rows : List Top100Row
  nextId : ℕ

/-- Number of rows carrying a given `(platform, rank, date)` triple; the
`UNIQUE(platform, rank, date)` schema constraint keeps this at most `1`. -/
def countTriple (t : Top100Table) (p : String) (rk : Int) (d : String) : ℕ :=
  t.rows.countP fun row => decide (row.platform = p ∧ row.rank = rk ∧ row.date = d)

/-- `INSERT OR IGNORE INTO Top100Lists ...` for one record (lines 156-165 of
the Apple scraper, 143-151 of the Spotify scraper): insert unless a row with
the same `(platform, rank, date)` exists; the returned flag is
`cursor.rowcount > 0`, i.e. whether a row was actually inserted. -/
def insertOrIgnoreTop100 (t : Top100Table) (r : ChartRecord) : Top100Table × Bool :=
  if t.rows.any (fun row => decide (row.platform = r.platform ∧ row.rank = r.rank ∧ row.date = r.date)) then
    (t, false)
  else
    ({ rows := t.rows ++ [⟨t.nextId, r.platform, r.rank, r.title, r.platform_podcast_id, r.date⟩],
       nextId := t.nextId + 1 }, true)

/-- The record loop of `save_chart_data_to_db`: process each record with
`INSERT OR IGNORE`, counting inserted and ignored rows.  (The
required-key check of the source is vacuous here because `ChartRecord` always
carries `platform`, `rank` and `date`.) -/
def saveRecords (t : Top100Table) : List ChartRecord → Top100Table × ℕ × ℕ
  | [] => (t, 0, 0)
  | r :: rs =>
    match insertOrIgnoreTop100 t r with
    | (t', inserted) =>
      match saveRecords t' rs with
      | (tf, ic, gc) =>
        (tf, (if inserted then 1 else 0) + ic, (if inserted then 0 else 1) + gc)

/-- `save_chart_data_to_db(records, db_path)` (shared body of both scrapers):
an empty record list returns immediately, otherwise all records are processed
and the final table is committed.  (The early return for a missing database
directory and the per-record binding errors are filesystem conditions outside
this model.) -/
def save_chart_data_to_db (records : List ChartRecord) (t : Top100Table) :
    Top100Table × ℕ × ℕ :=
  if records.isEmpty then (t, 0, 0) else saveRecords t records

/-- Failure condition for the Apple fetcher: a transport/JSON error, or a body
whose structure checks fail. -/
def appleFetchFailed : FetchOutcome → Bool
  | .ok d => (appleResults d).isNone
  | _ => true

/-- Failure condition for the Spotify fetcher: a transport/JSON error, or a
non-list body. -/
def spotifyFetchFailed : FetchOutcome → Bool
  | .ok (.pList _) => false
  | _ => true

/-- Claim C8: on any transport error, HTTP error, JSON-decode failure or
missing expected top-level structure (non-dict body, missing/falsy/non-dict
`feed`, missing/falsy/non-list `results` for Apple; non-list body for
Spotify), both chart fetchers return the empty list — never a partial result.
(The Lean functions are total, mirroring the Python catch-all handlers
that prevent any exception from escaping.) -/
theorem fetchers_empty_on_failure (limit : Int) (today : String) (o : FetchOutcome) :
    (appleFetchFailed o = true → scrape_apple_top_podcasts limit today o = []) ∧
      (spotifyFetchFailed o = true → scrape_spotify_top100 today o = []) := by
  constructor
  · intro h
    cases o with
    | ok data =>
      cases hr : appleResults data with
      | none => simp [scrape_apple_top_podcasts, hr]
      | some xs => simp [appleFetchFailed, hr] at h
    | timeout => rfl
    | requestError => rfl
    | jsonError => rfl
  · intro h
    cases o with
    | ok data =>
      cases data with
      | pList xs => cases h
      | pNull => rfl
      | pBool b => rfl
      | pInt n => rfl
      | pStr s => rfl
      | pDict fs => rfl
    | timeout => rfl
    | requestError => rfl
    | jsonError => rfl

/-- Witness for `fetchers_empty_on_failure` at a concrete input: a body that
is an empty JSON object (no `feed`, not a list). -/
theorem fetchers_empty_on_failure_witness :
    scrape_apple_top_podcasts 100 "2026-01-07" (.ok (.pDict [])) = [] ∧
      scrape_spotify_top100 "2026-01-07" (.ok (.pDict [])) = [] :=
  ⟨(fetchers_empty_on_failure 100 "2026-01-07" (.ok (.pDict []))).1 rfl,
    (fetchers_empty_on_failure 100 "2026-01-07" (.ok (.pDict []))).2 rfl⟩

/-- Claim C6: starting from any table state satisfying the uniqueness
constraint on this triple, inserting two records that carry the same
`(platform, rank, date)` triple leaves exactly one row with that triple; at
least one of the two attempts is counted as ignored, the two attempts are
counted exactly once each, and on a table not containing the triple the first
attempt is the inserted one and the second the ignored one. -/
theorem insert_same_triple_twice_leaves_one_row
    (t : Top100Table) (r1 r2 : ChartRecord)
    (hp : r2.platform = r1.platform) (hr : r2.rank = r1.rank) (hd : r2.date = r1.date)
    (hinv : countTriple t r1.platform r1.rank r1.date ≤ 1) :
    countTriple (save_chart_data_to_db [r1, r2] t).1 r1.platform r1.rank r1.date = 1 ∧
      1 ≤ (save_chart_data_to_db [r1, r2] t).2.2 ∧
      (save_chart_data_to_db [r1, r2] t).2.1 + (save_chart_data_to_db [r1, r2] t).2.2 = 2 ∧
      (countTriple t r1.platform r1.rank r1.date = 0 →
        (save_chart_data_to_db [r1, r2] t).2.1 = 1 ∧
          (save_chart_data_to_db [r1, r2] t).2.2 = 1) := by
  have hsave : save_chart_data_to_db [r1, r2] t = saveRecords t [r1, r2] := rfl
  cases h1 : t.rows.any
      (fun row => decide (row.platform = r1.platform ∧ row.rank = r1.rank ∧ row.date = r1.date)) with
  | true =>
    have hc1 : countTriple t r1.platform r1.rank r1.date = 1 := by
      obtain ⟨a, ha, hpa⟩ := List.any_eq_true.mp h1
      rcases Nat.lt_or_ge 0 (countTriple t r1.platform r1.rank r1.date) with hpos | hz
      · omega
      · exfalso
        have h0 : countTriple t r1.platform r1.rank r1.date = 0 := by omega
        unfold countTriple at h0
        rw [List.countP_eq_zero] at h0
        exact h0 a ha (by simpa using hpa)
    have hi1 : insertOrIgnoreTop100 t r1 = (t, false) := by
      unfold insertOrIgnoreTop100; rw [if_pos h1]
    have h2 : t.rows.any
        (fun row => decide (row.platform = r2.platform ∧ row.rank = r2.rank ∧ row.date = r2.date)) = true := by
      simpa only [hp, hr, hd] using h1
    have hi2 : insertOrIgnoreTop100 t r2 = (t, false) := by
      unfold insertOrIgnoreTop100; rw [if_pos h2]
    have hrun : saveRecords t [r1, r2] = (t, 0, 2) := by
      simp [saveRecords, hi1, hi2]
    rw [hsave, hrun]
    exact ⟨hc1, by norm_num, by norm_num, fun h0 => by omega⟩
  | false =>
    have hc0 : countTriple t r1.platform r1.rank r1.date = 0 := by
      rw [countTriple, List.countP_eq_zero]
      intro a ha hpa
      have hany : t.rows.any
          (fun row => decide (row.platform = r1.platform ∧ row.rank = r1.rank ∧ row.date = r1.date)) = true :=
        List.any_eq_true.mpr ⟨a, ha, by simpa using hpa⟩
      rw [h1] at hany; cases hany
    have hi1 : insertOrIgnoreTop100 t r1 =
        ({ rows := t.rows ++ [⟨t.nextId, r1.platform, r1.rank, r1.title, r1.platform_podcast_id, r1.date⟩],
           nextId := t.nextId + 1 }, true) := by
      unfold insertOrIgnoreTop100
      rw [if_neg]
      rw [h1]; exact Bool.false_ne_true
    have h2 : (t.rows ++ [(⟨t.nextId, r1.platform, r1.rank, r1.title, r1.platform_podcast_id, r1.date⟩ : Top100Row)]).any
        (fun row => decide (row.platform = r2.platform ∧ row.rank = r2.rank ∧ row.date = r2.date)) = true :=
      List.any_eq_true.mpr
        ⟨⟨t.nextId, r1.platform, r1.rank, r1.title, r1.platform_podcast_id, r1.date⟩,
          by simp, by simp [hp, hr, hd]⟩
    have hi2 : insertOrIgnoreTop100
        { rows := t.rows ++ [⟨t.nextId, r1.platform, r1.rank, r1.title, r1.platform_podcast_id, r1.date⟩],
          nextId := t.nextId + 1 } r2 =
        ({ rows := t.rows ++ [⟨t.nextId, r1.platform, r1.rank, r1.title, r1.platform_podcast_id, r1.date⟩],
           nextId := t.nextId + 1 }, false) := by
      unfold insertOrIgnoreTop100
      rw [if_pos h2]
    have hrun : saveRecords t [r1, r2] =
        ({ rows := t.rows ++ [⟨t.nextId, r1.platform, r1.rank, r1.title, r1.platform_podcast_id, r1.date⟩],
           nextId := t.nextId + 1 }, 1, 1) := by
      simp [saveRecords, hi1, hi2]
    rw [hsave, hrun]
    refine ⟨?_, by norm_num, by norm_num, fun _ => ⟨rfl, rfl⟩⟩
    rw [countTriple, List.countP_append]
    have : countTriple t r1.platform r1.rank r1.date =
        t.rows.countP (fun row => decide (row.platform = r1.platform ∧ row.rank = r1.rank ∧ row.date = r1.date)) := rfl
    rw [← this, hc0]
    simp

/-- Witness for `insert_same_triple_twice_leaves_one_row`: inserting the same
Apple rank-1 record twice into an empty table. -/
theorem insert_same_triple_twice_leaves_one_row_witness :
    countTriple (save_chart_data_to_db
        [⟨"Apple", 1, none, none, "2026-01-07"⟩, ⟨"Apple", 1, none, none, "2026-01-07"⟩]
        ⟨[], 1⟩).1 "Apple" 1 "2026-01-07" = 1 ∧
      1 ≤ (save_chart_data_to_db
        [⟨"Apple", 1, none, none, "2026-01-07"⟩, ⟨"Apple", 1, none, none, "2026-01-07"⟩]
        ⟨[], 1⟩).2.2 ∧
      (save_chart_data_to_db
        [⟨"Apple", 1, none, none, "2026-01-07"⟩, ⟨"Apple", 1, none, none, "2026-01-07"⟩]
        ⟨[], 1⟩).2.1 +
        (save_chart_data_to_db
        [⟨"Apple", 1, none, none, "2026-01-07"⟩, ⟨"Apple", 1, none, none, "2026-01-07"⟩]
        ⟨[], 1⟩).2.2 = 2 ∧
      (countTriple ⟨[], 1⟩ "Apple" 1 "2026-01-07" = 0 →
        (save_chart_data_to_db
          [⟨"Apple", 1, none, none, "2026-01-07"⟩, ⟨"Apple", 1, none, none, "2026-01-07"⟩]
          ⟨[], 1⟩).2.1 = 1 ∧
          (save_chart_data_to_db
          [⟨"Apple", 1, none, none, "2026-01-07"⟩, ⟨"Apple", 1, none, none, "2026-01-07"⟩]
          ⟨[], 1⟩).2.2 = 1) :=
  insert_same_triple_twice_leaves_one_row ⟨[], 1⟩
    ⟨"Apple", 1, none, none, "2026-01-07"⟩ ⟨"Apple", 1, none, none, "2026-01-07"⟩
    rfl rfl rfl (by decide)

/-- The split of a character list at colons is never the empty list. -/
lemma pySplitColon_ne_nil (l : List Char) : pySplitColon l ≠ [] := by
  induction l with
  | nil => simp [pySplitColon]
  | cons c cs ih =>
    unfold pySplitColon
    by_cases hc : c = ':'
    · rw [if_pos hc]; simp
    · rw [if_neg hc]
      cases h : pySplitColon cs with
      | nil => simp
      | cons g gs => simp

/-- Splitting a colon-free list yields the one-segment split. -/
lemma split_no_colon {l : List Char} (h : ':' ∉ l) : pySplitColon l = [l] := by
  induction l with
  | nil => rfl
  | cons c cs ih =>
    have hc : c ≠ ':' := fun hc => h (by simp [hc])
    have hcs : ':' ∉ cs := fun hm => h (List.mem_cons_of_mem _ hm)
    unfold pySplitColon
    rw [if_neg hc, ih hcs]

/-- A list containing a colon splits into at least two segments. -/
lemma split_length_two {l : List Char} (h : ':' ∈ l) : 2 ≤ (pySplitColon l).length := by
  induction l with
  | nil => cases h
  | cons c cs ih =>
    unfold pySplitColon
    by_cases hc : c = ':'
    · rw [if_pos hc]
      have h1 : 0 < (pySplitColon cs).length := List.length_pos.mpr (pySplitColon_ne_nil cs)
      simp only [List.length_cons]
      omega
    · rw [if_neg hc]
      have hcs : ':' ∈ cs := by
        rcases List.mem_cons.mp h with h1 | h2
        · exact absurd h1.symm hc
        · exact h2
      have h2 := ih hcs
      cases hsp : pySplitColon cs with
      | nil => exact absurd hsp (pySplitColon_ne_nil cs)
      | cons g gs =>
        rw [hsp] at h2
        simp only [List.length_cons] at h2 ⊢
        omega

/-- The last segment of the colon split contains no colon. -/
lemma colon_not_mem_lastSeg (l : List Char) : ':' ∉ (pySplitColon l).getLastD [] := by
  induction l with
  | nil => simp [pySplitColon]
  | cons c cs ih =>
    unfold pySplitColon
    by_cases hc : c = ':'
    · rw [if_pos hc]
      cases hsp : pySplitColon cs with
      | nil => exact absurd hsp (pySplitColon_ne_nil cs)
      | cons g gs =>
        rw [hsp] at ih
        simpa only [List.getLastD_cons] using ih
    · rw [if_neg hc]
      cases hsp : pySplitColon cs with
      | nil => exact absurd hsp (pySplitColon_ne_nil cs)
      | cons g gs =>
        rw [hsp] at ih
        cases gs with
        | nil =>
          simp only [List.getLastD_cons, List.getLastD_nil] at ih ⊢
          simp only [List.mem_cons, not_or]
          exact ⟨fun h => hc h.symm, ih⟩
        | cons g2 gs2 =>
          simp only [List.getLastD_cons] at ih ⊢
          exact ih

/-- A list containing a colon decomposes as a head part, a colon, and the last
segment of its colon split. -/
lemma lastSeg_decomp (l : List Char) (h : ':' ∈ l) :
    ∃ a, l = a ++ ':' :: (pySplitColon l).getLastD [] := by
  induction l with
  | nil => cases h
  | cons c cs ih =>
    unfold pySplitColon
    by_cases hc : c = ':'
    · subst hc
      rw [if_pos rfl]
      by_cases hcs : ':' ∈ cs
      · obtain ⟨a, ha⟩ := ih hcs
        cases hsp : pySplitColon cs with
        | nil => exact absurd hsp (pySplitColon_ne_nil cs)
        | cons g gs =>
          rw [hsp] at ha
          refine ⟨':' :: a, ?_⟩
          simp only [List.getLastD_cons] at ha ⊢
          simp [List.cons_append, ha]
      · have hsp := split_no_colon hcs
        rw [hsp]
        refine ⟨[], ?_⟩
        simp [List.getLastD_cons, List.getLastD_nil]
    · rw [if_neg hc]
      have hcs : ':' ∈ cs := by
        rcases List.mem_cons.mp h with h1 | h2
        · exact absurd h1.symm hc
        · exact h2
      obtain ⟨a, ha⟩ := ih hcs
      cases hsp : pySplitColon cs with
      | nil => exact absurd hsp (pySplitColon_ne_nil cs)
      | cons g gs =>
        rw [hsp] at ha
        cases gs with
        | nil =>
          have h2 := split_length_two hcs
          rw [hsp] at h2
          simp at h2
        | cons g2 gs2 =>
          refine ⟨c :: a, ?_⟩
          simp only [List.getLastD_cons] at ha ⊢
          simp [List.cons_append, ha]

/-- An item of the Spotify results list that cannot raise inside the loop:
a dict whose `showUri`, if present, is a string. -/
def cleanItemB : PyVal → Bool
  | .pDict fs =>
    match lookupField fs "showUri" with
    | none => true
    | some (.pStr _) => true
    | some _ => false
  | _ => false

/-- Specification-side statement of claim C10 for one produced record: when
`showUri` is a non-empty string containing a colon, the produced
`platform_podcast_id` is the colon-free suffix of `showUri` that follows its
last colon; when `showUri` is absent, empty, or colon-free, it is `none`. -/
def pidOk (fs : List (String × PyVal)) (rec : ChartRecord) : Prop :=
  match lookupField fs "showUri" with
  | some (.pStr u) =>
    if u ≠ "" ∧ ':' ∈ u.data then
      ∃ a t, rec.platform_podcast_id = some (.pStr ⟨t⟩) ∧ ':' ∉ t ∧ u.data = a ++ ':' :: t
    else rec.platform_podcast_id = none
  | none => rec.platform_podcast_id = none
  | some _ => True

/-- For a clean item, the `platform_podcast_id` expression does not raise, and
its value satisfies `pidOk`. -/
lemma spotifyPid_clean (fs : List (String × PyVal)) (h : cleanItemB (.pDict fs) = true) :
    ∃ pid, spotifyPid ((lookupField fs "showUri").getD (.pStr "")) = .ok pid ∧
      ∀ rec : ChartRecord, rec.platform_podcast_id = pid.map .pStr → pidOk fs rec := by
  cases hlk : lookupField fs "showUri" with
  | none =>
    refine ⟨none, rfl, ?_⟩
    intro rec hrec
    unfold pidOk
    rw [hlk]
    simpa using hrec
  | some v =>
    cases v with
    | pStr u =>
      by_cases hu : u = ""
      · subst hu
        refine ⟨none, rfl, ?_⟩
        intro rec hrec
        unfold pidOk
        rw [hlk]
        simpa using hrec
      · have ht : truthy (.pStr u) = true := by simp [truthy, hu]
        by_cases hcol : ':' ∈ u.data
        · refine ⟨some (lastAfterSplit u), ?_, ?_⟩
          · show spotifyPid (.pStr u) = .ok (some (lastAfterSplit u))
            unfold spotifyPid
            rw [if_pos ht]
            dsimp only
            have hct : u.data.contains ':' = true := by
              simp [List.contains, List.elem_eq_mem, hcol]
            rw [if_pos hct]
          · intro rec hrec
            unfold pidOk
            rw [hlk]
            dsimp only
            rw [if_pos ⟨hu, hcol⟩]
            obtain ⟨a, ha⟩ := lastSeg_decomp u.data hcol
            exact ⟨a, (pySplitColon u.data).getLastD [],
              by simpa [lastAfterSplit] using hrec, colon_not_mem_lastSeg u.data, ha⟩
        · refine ⟨none, ?_, ?_⟩
          · show spotifyPid (.pStr u) = .ok none
            unfold spotifyPid
            rw [if_pos ht]
            dsimp only
            have hct : u.data.contains ':' = false := by
              simp [List.contains, List.elem_eq_mem, hcol]
            rw [if_neg (by rw [hct]; exact Bool.false_ne_true)]
          · intro rec hrec
            unfold pidOk
            rw [hlk]
            dsimp only
            rw [if_neg (by rintro ⟨-, hc2⟩; exact hcol hc2)]
            simpa using hrec
    | pNull => simp [cleanItemB, hlk] at h
    | pBool b => simp [cleanItemB, hlk] at h
    | pInt n => simp [cleanItemB, hlk] at h
    | pList xs => simp [cleanItemB, hlk] at h
    | pDict fs2 => simp [cleanItemB, hlk] at h

/-- On a list of clean items the Spotify record loop never raises, produces
one record per item with consecutive ranks starting at `i + 1`, and each
record's platform podcast id satisfies `pidOk`. -/
lemma buildSpotifyRecords_clean (today : String) :
    ∀ (items : List PyVal) (i : ℕ),
      (∀ v ∈ items, cleanItemB v = true) →
      ∃ recs, buildSpotifyRecords today i items = .ok recs ∧
        recs.map (fun r => r.rank) =
          (List.range items.length).map (fun k => ((i + k : ℕ) : Int) + 1) ∧
        List.Forall₂ (fun v rec => ∀ gs, v = PyVal.pDict gs → pidOk gs rec) items recs := by
  intro items
  induction items with
  | nil => intro i _; exact ⟨[], rfl, by simp, List.Forall₂.nil⟩
  | cons v vs ih =>
    intro i hall
    obtain ⟨rest, hrest, hranks, hrel⟩ := ih (i + 1) (fun w hw => hall w (List.mem_cons_of_mem _ hw))
    have hv := hall v (List.mem_cons_self _ _)
    cases v with
    | pDict fs =>
      obtain ⟨pid, hpid, hrelv⟩ := spotifyPid_clean fs hv
      refine ⟨{ platform := "Spotify", rank := (i : Int) + 1,
                title := lookupField fs "showName",
                platform_podcast_id := pid.map .pStr, date := today } :: rest, ?_, ?_, ?_⟩
      · simp only [buildSpotifyRecords, hpid, hrest]
      · have htail : List.map (fun k => ((i + 1 + k : ℕ) : Int) + 1) (List.range vs.length) =
            List.map ((fun k => ((i + k : ℕ) : Int) + 1) ∘ Nat.succ) (List.range vs.length) := by
          apply List.map_congr_left
          intro k _
          simp only [Function.comp]
          push_cast
          ring
        simp only [List.map_cons, List.length_cons, hranks, List.range_succ_eq_map,
          List.map_map, htail]
        simp
      · refine List.Forall₂.cons ?_ hrel
        intro gs hgs
        cases hgs
        exact hrelv _ rfl
    | pNull => simp [cleanItemB] at hv
    | pBool b => simp [cleanItemB] at hv
    | pInt n => simp [cleanItemB] at hv
    | pStr s => simp [cleanItemB] at hv
    | pList xs => simp [cleanItemB] at hv

/-- On a list of dict items the Apple record loop produces one record per item
with consecutive ranks starting at `i + 1`. -/
lemma buildAppleRecords_ranks (today : String) :
    ∀ (xs : List PyVal) (i : ℕ),
      (∀ v ∈ xs, isDictB v = true) →
      (buildAppleRecords today i xs).map (fun r => r.rank) =
        (List.range xs.length).map (fun k => ((i + k : ℕ) : Int) + 1) := by
  intro xs
  induction xs with
  | nil => intro i _; simp [buildAppleRecords]
  | cons v vs ih =>
    intro i hall
    have hv := hall v (List.mem_cons_self _ _)
    cases v with
    | pDict fs =>
      have ihs := ih (i + 1) (fun w hw => hall w (List.mem_cons_of_mem _ hw))
      have htail : List.map (fun k => ((i + 1 + k : ℕ) : Int) + 1) (List.range vs.length) =
          List.map ((fun k => ((i + k : ℕ) : Int) + 1) ∘ Nat.succ) (List.range vs.length) := by
        apply List.map_congr_left
        intro k _
        simp only [Function.comp]
        push_cast
        ring
      simp only [buildAppleRecords, List.map_cons, List.length_cons, ihs,
        List.range_succ_eq_map, List.map_map, htail]
      simp
    | pNull => simp [isDictB] at hv
    | pBool b => simp [isDictB] at hv
    | pInt n => simp [isDictB] at hv
    | pStr s => simp [isDictB] at hv
    | pList ys => simp [isDictB] at hv

/-- The rank column of a record list. -/
def ranksOf (recs : List ChartRecord) : List Int :=
  recs.map fun r => r.rank

/-- The ranks the spec claims: `1 .. min(len(results), limit)`. -/
def claimedRanks (n : ℕ) (limit : Int) : List Int :=
  (List.range (min (n : Int) limit).toNat).map fun k : ℕ => (k : Int) + 1

/-- Claim C7 (amended): for a well-formed results list and a NON-NEGATIVE
limit, the Apple fetcher's ranks are exactly `1 .. min(len(results), limit)`
in response order; the Spotify fetcher (fixed limit 100) yields
`1 .. min(len(results), 100)` on a list of clean items. -/
theorem ranks_consecutive_upto_limit (limit : Int) (today : String) (data : PyVal)
    (xs : List PyVal) (items : List PyVal) :
    (0 ≤ limit → appleResults data = some xs → (∀ v ∈ xs, isDictB v = true) →
      ranksOf (scrape_apple_top_podcasts limit today (.ok data)) =
        claimedRanks xs.length limit) ∧
      ((∀ v ∈ items, cleanItemB v = true) →
        ranksOf (scrape_spotify_top100 today (.ok (.pList items))) =
          claimedRanks items.length 100) := by
  constructor
  · intro hlim hres hall
    have htake : pyTake limit xs = xs.take limit.toNat := if_pos hlim
    have halltake : ∀ v ∈ pyTake limit xs, isDictB v = true := by
      rw [htake]; exact fun v hv => hall v (List.take_subset _ _ hv)
    have hb := buildAppleRecords_ranks today (pyTake limit xs) 0 halltake
    have hscrape : scrape_apple_top_podcasts limit today (.ok data) =
        buildAppleRecords today 0 (pyTake limit xs) := by
      simp [scrape_apple_top_podcasts, hres]
    rw [ranksOf, hscrape, hb, htake, claimedRanks, List.length_take]
    have hmin : min limit.toNat xs.length = (min (xs.length : Int) limit).toNat := by omega
    rw [hmin]
    apply List.map_congr_left
    intro k _
    simp
  · intro hclean
    have htake : pyTake 100 items = items.take 100 := by simp [pyTake]
    have halltake : ∀ v ∈ pyTake 100 items, cleanItemB v = true := by
      rw [htake]; exact fun v hv => hclean v (List.take_subset _ _ hv)
    obtain ⟨recs, hb, hranks, -⟩ := buildSpotifyRecords_clean today (pyTake 100 items) 0 halltake
    have hscrape : scrape_spotify_top100 today (.ok (.pList items)) = recs := by
      simp [scrape_spotify_top100, hb]
    rw [ranksOf, hscrape, hranks, htake, claimedRanks, List.length_take]
    have hmin : min 100 items.length = (min (items.length : Int) 100).toNat := by omega
    rw [hmin]
    apply List.map_congr_left
    intro k _
    simp

/-- Witness for `ranks_consecutive_upto_limit`: five dict results with limit 3
give Apple ranks `[1, 2, 3]`, and two clean Spotify items give ranks `[1, 2]`. -/
theorem ranks_consecutive_upto_limit_witness :
    ranksOf (scrape_apple_top_podcasts 3 "2026-01-07"
        (.ok (.pDict [("feed", .pDict [("results",
          .pList [.pDict [], .pDict [], .pDict [], .pDict [], .pDict []])])]))) =
      claimedRanks 5 3 ∧
      ranksOf (scrape_spotify_top100 "2026-01-07" (.ok (.pList [.pDict [], .pDict []]))) =
        claimedRanks 2 100 :=
  ⟨(ranks_consecutive_upto_limit 3 "2026-01-07"
      (.pDict [("feed", .pDict [("results",
        .pList [.pDict [], .pDict [], .pDict [], .pDict [], .pDict []])])])
      [.pDict [], .pDict [], .pDict [], .pDict [], .pDict []]
      [.pDict [], .pDict []]).1 (by norm_num) rfl (by decide),
    (ranks_consecutive_upto_limit 3 "2026-01-07"
      (.pDict [("feed", .pDict [("results",
        .pList [.pDict [], .pDict [], .pDict [], .pDict [], .pDict []])])])
      [.pDict [], .pDict [], .pDict [], .pDict [], .pDict []]
      [.pDict [], .pDict []]).2 (by decide)⟩

/-- Claim C7 as stated is false for a negative limit: Python's `results[:limit]`
slices from the end, so with limit `-1` and two well-formed dict results the
Apple fetcher produces the single rank `[1]`, while
`1 .. min(len(results), limit) = 1 .. -1` is empty. -/
theorem negative_limit_ranks_counterexample :
    ranksOf (scrape_apple_top_podcasts (-1) "2026-01-07"
        (.ok (.pDict [("feed", .pDict [("results",
          .pList [.pDict [("name", .pStr "A")], .pDict [("name", .pStr "B")]])])]))) = [1] ∧
      claimedRanks 2 (-1) = [] := by
  constructor
  · rfl
  · rfl

/-- Claim C10: over any Spotify response list whose items are dicts with an
absent-or-string `showUri` (items that cannot raise inside the loop), the
fetcher produces one record per processed item, and each record's
`platform_podcast_id` is the colon-free suffix after the last colon of
`showUri` when `showUri` is a non-empty string containing a colon, and `none`
when `showUri` is absent, empty, or colon-free (`pidOk`). -/
theorem spotify_platform_podcast_id_rule (today : String) (items : List PyVal)
    (hclean : ∀ v ∈ items, cleanItemB v = true) :
    List.Forall₂ (fun v rec => ∀ gs, v = PyVal.pDict gs → pidOk gs rec)
      (pyTake 100 items) (scrape_spotify_top100 today (.ok (.pList items))) := by
  have htake : pyTake 100 items = items.take 100 := by simp [pyTake]
  have halltake : ∀ v ∈ pyTake 100 items, cleanItemB v = true := by
    rw [htake]; exact fun v hv => hclean v (List.take_subset _ _ hv)
  obtain ⟨recs, hb, -, hrel⟩ := buildSpotifyRecords_clean today (pyTake 100 items) 0 halltake
  have hscrape : scrape_spotify_top100 today (.ok (.pList items)) = recs := by
    simp [scrape_spotify_top100, hb]
  rw [hscrape]
  exact hrel

/-- Witness for `spotify_platform_podcast_id_rule`: an item with
`showUri = "spotify:show:abc123"` yields id `abc123`, a colon-free `showUri`
yields `none`, an empty `showUri` yields `none`, and an absent `showUri`
yields `none`. -/
theorem spotify_platform_podcast_id_rule_witness :
    List.Forall₂ (fun v rec => ∀ gs, v = PyVal.pDict gs → pidOk gs rec)
      (pyTake 100 [PyVal.pDict [("showUri", .pStr "spotify:show:abc123")],
        .pDict [("showUri", .pStr "nocolon")], .pDict [("showUri", .pStr "")], .pDict []])
      (scrape_spotify_top100 "2026-01-07"
        (.ok (.pList [PyVal.pDict [("showUri", .pStr "spotify:show:abc123")],
          .pDict [("showUri", .pStr "nocolon")], .pDict [("showUri", .pStr "")], .pDict []]))) ∧
      scrape_spotify_top100 "2026-01-07"
          (.ok (.pList [PyVal.pDict [("showUri", .pStr "spotify:show:abc123")],
            .pDict [("showUri", .pStr "nocolon")], .pDict [("showUri", .pStr "")], .pDict []])) =
        [⟨"Spotify", 1, none, some (.pStr "abc123"), "2026-01-07"⟩,
          ⟨"Spotify", 2, none, none, "2026-01-07"⟩,
          ⟨"Spotify", 3, none, none, "2026-01-07"⟩,
          ⟨"Spotify", 4, none, none, "2026-01-07"⟩] :=
  ⟨spotify_platform_podcast_id_rule "2026-01-07"
      [PyVal.pDict [("showUri", .pStr "spotify:show:abc123")],
        .pDict [("showUri", .pStr "nocolon")], .pDict [("showUri", .pStr "")], .pDict []]
      (by decide),
    rfl⟩

/-! ### Detail store writer (`update_podcast_details.py`, lines 335-543)

The per-podcast database writes of `update_all_podcast_details` (lines
466-512) run on one SQLite connection with `PRAGMA foreign_keys = ON` and are
committed once per podcast; a `sqlite3.Error` raised by the `Podcasts` upsert
or by the commit is caught at line 509 (roll back, `update_errors += 1`),
while errors from the category-link delete and from the per-category inserts
are caught inside (lines 484, 497, 500) and only bump
`category_link_errors`.  Failures of individual statements are injected
through a `FailSpec`; the intrinsic constraint behaviour (primary keys, the
`UNIQUE` category name, foreign keys) is part of the store model itself. -/

/-- Value of one digit character. -/
def digitVal (c : Char) : ℕ := c.toNat - '0'.toNat

/-- Digit-sequence tail of Python `int(s)`: after a first digit, digits with
single underscores allowed between digits. -/
def goDigits : ℕ → List Char → Option ℕ
  | acc, [] => some acc
  | acc, '_' :: c :: cs => if c.isDigit then goDigits (acc * 10 + digitVal c) cs else none
  | acc, c :: cs => if c.isDigit then goDigits (acc * 10 + digitVal c) cs else none

/-- Non-empty digit sequence of Python `int(s)`. -/
def parseDigits : List Char → Option ℕ
  | [] => none
  | c :: cs => if c.isDigit then goDigits (digitVal c) cs else none

/-- Python `int(s)` on a string: optional surrounding whitespace, optional
sign, then ASCII digits with single underscores between digits; `none` models
the `ValueError` branch of line 497. -/
def pyParseInt (s : String) : Option Int :=
  match (pyStrip s).data with
  | '+' :: rest => (parseDigits rest).map fun n => (n : Int)
  | '-' :: rest => (parseDigits rest).map fun n => -(n : Int)
  | rest => (parseDigits rest).map fun n => (n : Int)

/-- One row of the `Podcasts` table (without its primary key, which keys the
association list of the store). -/
structure PodcastRow where
  title : Option String
  description : Option String
  feed_url : Option String
  image_url : Option String
  episode_count : Option Int
  avg_duration_last_10 : Option ℕ
  latest_episode_title : Option String
  last_update_time : Option Int
  podcast_guid : Option String
  original_url : Option String
deriving DecidableEq

/-- The relevant tables of the SQLite store: `Podcasts` keyed by
`podcast_id`, `Categories` rows `(category_id, category_name)` with both a
primary key and a `UNIQUE` name, and the `PodcastCategories` join pairs. -/
structure Store where
  podcasts : List (Int × PodcastRow)
  categories : List (Int × String)
  podcastCategories : List (Int × Int)
deriving DecidableEq

/-- `INSERT OR REPLACE INTO Podcasts ...` (line 468). -/
def upsertPodcast (s : Store) (pid : Int) (row : PodcastRow) : Store :=
  { s with podcasts := (pid, row) :: s.podcasts.filter fun p => decide (p.1 ≠ pid) }

/-- `DELETE FROM PodcastCategories WHERE podcast_id = ?` (line 482). -/
def deleteLinks (s : Store) (pid : Int) : Store :=
  { s with podcastCategories := s.podcastCategories.filter fun q => decide (q.1 ≠ pid) }

/-- `INSERT OR IGNORE INTO Categories ...` (line 495): ignored when either the
`category_id` primary key or the `UNIQUE` `category_name` already exists. -/
def insertOrIgnoreCategory (s : Store) (cid : Int) (name : String) : Store :=
  if s.categories.any fun q => decide (q.1 = cid ∨ q.2 = name) then s
  else { s with categories := s.categories ++ [(cid, name)] }

/-- `INSERT OR IGNORE INTO PodcastCategories ...` (line 496) under
`PRAGMA foreign_keys = ON`: `none` is the foreign-key violation raised when
the referenced podcast or category row does not exist; a duplicate pair is
ignored. -/
def insertLinkFK (s : Store) (pid cid : Int) : Option Store :=
  if (s.podcasts.any fun p => decide (p.1 = pid)) &&
      (s.categories.any fun q => decide (q.1 = cid)) then
    if s.podcastCategories.any fun q => decide (q = (pid, cid)) then some s
    else some { s with podcastCategories := s.podcastCategories ++ [(pid, cid)] }
  else none

/-- Injected statement failures for one podcast's transaction: an error on
the `Podcasts` upsert, on the category-link delete, on the commit, or on the
category inserts of the i-th map entry. -/
structure FailSpec where
  upsert : Bool
  del : Bool
  commit : Bool
  catIns : ℕ → Bool

/-- No injected failures. -/
def noFail : FailSpec := ⟨false, false, false, fun _ => false⟩

/-- The category loop (lines 489-504): skip entries with a falsy id string or
name, count a `ValueError` for an unparsable id, count a `sqlite3.Error` for
an injected insert failure or a foreign-key violation (a category whose name
is already taken by a different id is not inserted, so the link insert
violates the foreign key); each error only skips that entry. -/
def processCats (fspec : FailSpec) (pid : Int) :
    List (String × String) → ℕ → Store → Store × ℕ
  | [], _, s => (s, 0)
  | (k, n) :: rest, i, s =>
    if k = "" ∨ n = "" then processCats fspec pid rest (i + 1) s
    else
      match pyParseInt k with
      | none =>
        let r := processCats fspec pid rest (i + 1) s
        (r.1, r.2 + 1)
      | some cid =>
        if fspec.catIns i then
          let r := processCats fspec pid rest (i + 1) s
          (r.1, r.2 + 1)
        else
          let s1 := insertOrIgnoreCategory s cid n
          match insertLinkFK s1 pid cid with
          | some s2 => processCats fspec pid rest (i + 1) s2
          | none =>
            let r := processCats fspec pid rest (i + 1) s1
            (r.1, r.2 + 1)

/-- The per-podcast transaction (lines 466-512): upsert the podcast row,
delete its category links, re-insert the links from the category map, commit.
An upsert or commit error reaches the handler at line 509: the transaction is
rolled back to `committed` and the update-error counter (second component)
is bumped.  A delete error or per-category error only bumps the
category-link error counter (third component) and the transaction still
commits. -/
def processPodcastWrites (fspec : FailSpec) (committed : Store) (pid : Int)
    (row : PodcastRow) (cats : Option (List (String × String))) : Store × ℕ × ℕ :=
  if fspec.upsert then (committed, 1, 0)
  else
    let s1 := upsertPodcast committed pid row
    if fspec.del then
      if fspec.commit then (committed, 1, 1) else (s1, 0, 1)
    else
      let s2 := deleteLinks s1 pid
      match cats with
      | some m =>
        let r := processCats fspec pid m 0 s2
        if fspec.commit then (committed, 1, r.2) else (r.1, 0, r.2)
      | none => if fspec.commit then (committed, 1, 0) else (s2, 0, 0)

/-- The title loop of `update_all_podcast_details` (phase 3, lines 413-519),
restricted to the podcasts whose search and detail fetch succeeded: each job
is processed in order whatever the outcome of the previous ones; the final
component counts the processed jobs.  (Schema setup, title fetch and the
network phases are outside the store model.) -/
def update_all_podcast_details (fss : ℕ → FailSpec) :
    List (Int × PodcastRow × Option (List (String × String))) → ℕ → Store →
      Store × ℕ × ℕ × ℕ
  | [], _, s => (s, 0, 0, 0)
  | (pid, row, cats) :: rest, j, s =>
    let r := processPodcastWrites (fss j) s pid row cats
    let q := update_all_podcast_details fss rest (j + 1) r.1
    (q.1, r.2.1 + q.2.1, r.2.2 + q.2.2.1, q.2.2.2 + 1)

/-- The category ids a map contributes: entries with non-empty id string and
non-empty name whose id parses as an integer. -/
def wellFormedIds (m : List (String × String)) : List Int :=
  m.filterMap fun p => if p.1 = "" ∨ p.2 = "" then none else pyParseInt p.1

/-- The empty store. -/
def emptyStore : Store := ⟨[], [], []⟩

/-- A podcast row with no metadata. -/
def row0 : PodcastRow := ⟨none, none, none, none, none, none, none, none, none, none⟩

/-- The entries of a category map whose inserts are not hit by an injected
failure (entries skipped for a falsy id/name or for an unparsable id behave
identically with or without failure injection and are kept). -/
def keepCats (f : ℕ → Bool) : List (String × String) → ℕ → List (String × String)
  | [], _ => []
  | (k, n) :: rest, i =>
    if k = "" ∨ n = "" then (k, n) :: keepCats f rest (i + 1)
    else
      match pyParseInt k with
      | none => (k, n) :: keepCats f rest (i + 1)
      | some _ => if f i then keepCats f rest (i + 1) else (k, n) :: keepCats f rest (i + 1)

/-- Number of map entries whose category inserts are hit by an injected
failure (only entries that reach the inserts can be). -/
def failCount (f : ℕ → Bool) : List (String × String) → ℕ → ℕ
  | [], _ => 0
  | (k, n) :: rest, i =>
    if k = "" ∨ n = "" then failCount f rest (i + 1)
    else
      match pyParseInt k with
      | none => failCount f rest (i + 1)
      | some _ => (if f i then 1 else 0) + failCount f rest (i + 1)

/-- Without injected failures the category loop ignores its entry index. -/
lemma processCats_noFail_index (pid : Int) :
    ∀ (m : List (String × String)) (i j : ℕ) (s : Store),
      processCats noFail pid m i s = processCats noFail pid m j s := by
  intro m
  induction m with
  | nil => intro i j s; rfl
  | cons p rest ih =>
    obtain ⟨k, n⟩ := p
    intro i j s
    unfold processCats
    by_cases hkn : k = "" ∨ n = ""
    · simp only [if_pos hkn]
      exact ih (i + 1) (j + 1) s
    · simp only [if_neg hkn]
      cases hparse : pyParseInt k with
      | none =>
        dsimp only
        rw [ih (i + 1) (j + 1) s]
      | some cid =>
        dsimp only
        rw [if_neg (by simp [noFail]), if_neg (by simp [noFail])]
        cases hfk : insertLinkFK (insertOrIgnoreCategory s cid n) pid cid with
        | some s2 => exact ih (i + 1) (j + 1) s2
        | none =>
          dsimp only
          rw [ih (i + 1) (j + 1) (insertOrIgnoreCategory s cid n)]

/-- An injected failure on an entry's category inserts is isolated to that
entry: the loop behaves exactly like the failure-free loop over the surviving
entries, with one extra category-link error per failing entry. -/
lemma processCats_catIns_isolated (g : ℕ → Bool) (pid : Int) :
    ∀ (m : List (String × String)) (i : ℕ) (s : Store),
      processCats ⟨false, false, false, g⟩ pid m i s =
        ((processCats noFail pid (keepCats g m i) 0 s).1,
          (processCats noFail pid (keepCats g m i) 0 s).2 + failCount g m i) := by
  intro m
  induction m with
  | nil => intro i s; rfl
  | cons p rest ih =>
    obtain ⟨k, n⟩ := p
    intro i s
    by_cases hkn : k = "" ∨ n = ""
    · have hkeep : keepCats g ((k, n) :: rest) i = (k, n) :: keepCats g rest (i + 1) := by
        simp only [keepCats]; rw [if_pos hkn]
      have hfail : failCount g ((k, n) :: rest) i = failCount g rest (i + 1) := by
        simp only [failCount]; rw [if_pos hkn]
      have hL : processCats ⟨false, false, false, g⟩ pid ((k, n) :: rest) i s =
          processCats ⟨false, false, false, g⟩ pid rest (i + 1) s := by
        simp only [processCats]; rw [if_pos hkn]
      have hR : processCats noFail pid ((k, n) :: keepCats g rest (i + 1)) 0 s =
          processCats noFail pid (keepCats g rest (i + 1)) 1 s := by
        simp only [processCats]; rw [if_pos hkn]
      rw [hkeep, hfail, hL, hR, processCats_noFail_index pid (keepCats g rest (i + 1)) 1 0 s]
      exact ih (i + 1) s
    · cases hparse : pyParseInt k with
      | none =>
        have hkeep : keepCats g ((k, n) :: rest) i = (k, n) :: keepCats g rest (i + 1) := by
          simp only [keepCats]; rw [if_neg hkn, hparse]
        have hfail : failCount g ((k, n) :: rest) i = failCount g rest (i + 1) := by
          simp only [failCount]; rw [if_neg hkn, hparse]
        have hL : processCats ⟨false, false, false, g⟩ pid ((k, n) :: rest) i s =
            ((processCats ⟨false, false, false, g⟩ pid rest (i + 1) s).1,
              (processCats ⟨false, false, false, g⟩ pid rest (i + 1) s).2 + 1) := by
          simp only [processCats]; rw [if_neg hkn, hparse]
        have hR : processCats noFail pid ((k, n) :: keepCats g rest (i + 1)) 0 s =
            ((processCats noFail pid (keepCats g rest (i + 1)) 1 s).1,
              (processCats noFail pid (keepCats g rest (i + 1)) 1 s).2 + 1) := by
          simp only [processCats]; rw [if_neg hkn, hparse]
        rw [hkeep, hfail, hL, hR, processCats_noFail_index pid (keepCats g rest (i + 1)) 1 0 s,
          ih (i + 1) s]
        simp only [Prod.mk.injEq]
        exact ⟨by trivial, by omega⟩
      | some cid =>
        by_cases hgi : g i = true
        · have hkeep : keepCats g ((k, n) :: rest) i = keepCats g rest (i + 1) := by
            simp only [keepCats]; rw [if_neg hkn, hparse]; dsimp only; rw [if_pos hgi]
          have hfail : failCount g ((k, n) :: rest) i = 1 + failCount g rest (i + 1) := by
            simp only [failCount]; rw [if_neg hkn, hparse]; dsimp only; rw [if_pos hgi]
          have hL : processCats ⟨false, false, false, g⟩ pid ((k, n) :: rest) i s =
              ((processCats ⟨false, false, false, g⟩ pid rest (i + 1) s).1,
                (processCats ⟨false, false, false, g⟩ pid rest (i + 1) s).2 + 1) := by
            simp only [processCats]; rw [if_neg hkn, hparse]; dsimp only; rw [if_pos hgi]
          rw [hkeep, hfail, hL, ih (i + 1) s]
          simp only [Prod.mk.injEq]
          exact ⟨by trivial, by omega⟩
        · have hgf : g i = false := by
            cases h : g i
            · rfl
            · exact absurd h hgi
          have hkeep : keepCats g ((k, n) :: rest) i = (k, n) :: keepCats g rest (i + 1) := by
            simp only [keepCats]; rw [if_neg hkn, hparse]; dsimp only; rw [if_neg hgi]
          have hfail : failCount g ((k, n) :: rest) i = failCount g rest (i + 1) := by
            simp only [failCount]; rw [if_neg hkn, hparse]; dsimp only
            rw [if_neg hgi]
            omega
          rw [hkeep]
          cases hfk : insertLinkFK (insertOrIgnoreCategory s cid n) pid cid with
          | some s2 =>
            have hL : processCats ⟨false, false, false, g⟩ pid ((k, n) :: rest) i s =
                processCats ⟨false, false, false, g⟩ pid rest (i + 1) s2 := by
              simp only [processCats]; rw [if_neg hkn, hparse]; dsimp only
              rw [if_neg hgi, hfk]
            have hR : processCats noFail pid ((k, n) :: keepCats g rest (i + 1)) 0 s =
                processCats noFail pid (keepCats g rest (i + 1)) 1 s2 := by
              simp only [processCats]; rw [if_neg hkn, hparse]; dsimp only
              rw [if_neg (by simp [noFail]), hfk]
            rw [hfail, hL, hR, processCats_noFail_index pid (keepCats g rest (i + 1)) 1 0 s2]
            exact ih (i + 1) s2
          | none =>
            have hL : processCats ⟨false, false, false, g⟩ pid ((k, n) :: rest) i s =
                ((processCats ⟨false, false, false, g⟩ pid rest (i + 1)
                    (insertOrIgnoreCategory s cid n)).1,
                  (processCats ⟨false, false, false, g⟩ pid rest (i + 1)
                    (insertOrIgnoreCategory s cid n)).2 + 1) := by
              simp only [processCats]; rw [if_neg hkn, hparse]; dsimp only
              rw [if_neg hgi, hfk]
            have hR : processCats noFail pid ((k, n) :: keepCats g rest (i + 1)) 0 s =
                ((processCats noFail pid (keepCats g rest (i + 1)) 1
                    (insertOrIgnoreCategory s cid n)).1,
                  (processCats noFail pid (keepCats g rest (i + 1)) 1
                    (insertOrIgnoreCategory s cid n)).2 + 1) := by
              simp only [processCats]; rw [if_neg hkn, hparse]; dsimp only
              rw [if_neg (by simp [noFail]), hfk]
            rw [hfail, hL, hR,
              processCats_noFail_index pid (keepCats g rest (i + 1)) 1 0
                (insertOrIgnoreCategory s cid n),
              ih (i + 1) (insertOrIgnoreCategory s cid n)]
            simp only [Prod.mk.injEq]
            exact ⟨by trivial, by omega⟩

/-- Claim C3 (amended): the writes for one podcast are one transaction, but
only a failure of the `Podcasts` upsert or of the commit rolls it back
(leaving the store unchanged for that podcast) and bumps the update-error
counter.  A failure of the category-link delete is caught inside the
transaction, bumps the category-link counter, skips the whole category phase,
and the upsert is still committed.  A failure of an individual category
insert is caught inside the transaction and is isolated to its entry: the
committed result is the failure-free run over the surviving entries, with one
extra category-link error per failing entry and zero update errors.
Processing always continues: every job of the title loop is processed,
whatever failures occur. -/
theorem transaction_rollback_scope
    (fspec : FailSpec) (s : Store) (pid : Int) (row : PodcastRow)
    (cats : Option (List (String × String)))
    (fss : ℕ → FailSpec) (jobs : List (Int × PodcastRow × Option (List (String × String))))
    (j : ℕ) (s0 : Store) :
    (fspec.upsert = true → processPodcastWrites fspec s pid row cats = (s, 1, 0)) ∧
      (fspec.upsert = false → fspec.commit = true →
        (processPodcastWrites fspec s pid row cats).1 = s ∧
          (processPodcastWrites fspec s pid row cats).2.1 = 1) ∧
      (fspec.upsert = false → fspec.commit = false → fspec.del = true →
        processPodcastWrites fspec s pid row cats = (upsertPodcast s pid row, 0, 1)) ∧
      (fspec.upsert = false → fspec.del = false → fspec.commit = false →
        ∀ m : List (String × String),
          processPodcastWrites fspec s pid row (some m) =
            ((processCats noFail pid (keepCats fspec.catIns m 0) 0
                (deleteLinks (upsertPodcast s pid row) pid)).1,
              0,
              (processCats noFail pid (keepCats fspec.catIns m 0) 0
                  (deleteLinks (upsertPodcast s pid row) pid)).2 +
                failCount fspec.catIns m 0)) ∧
      (update_all_podcast_details fss jobs j s0).2.2.2 = jobs.length := by
  refine ⟨?_, ?_, ?_, ?_, ?_⟩
  · intro h
    unfold processPodcastWrites
    rw [if_pos h]
  · intro hu hc
    unfold processPodcastWrites
    rw [if_neg (by rw [hu]; exact Bool.false_ne_true)]
    dsimp only
    by_cases hd : fspec.del = true
    · rw [if_pos hd, if_pos hc]
      exact ⟨rfl, rfl⟩
    · rw [if_neg hd]
      cases cats with
      | none =>
        dsimp only
        rw [if_pos hc]
        exact ⟨rfl, rfl⟩
      | some m =>
        dsimp only
        rw [if_pos hc]
        exact ⟨rfl, rfl⟩
  · intro hu hc hd
    unfold processPodcastWrites
    rw [if_neg (by rw [hu]; exact Bool.false_ne_true), if_pos hd,
      if_neg (by rw [hc]; exact Bool.false_ne_true)]
  · intro hu hd hc m
    obtain ⟨u, d, c, g⟩ := fspec
    simp only at hu hd hc
    subst hu; subst hd; subst hc
    have hiso := processCats_catIns_isolated g pid m 0
      (deleteLinks (upsertPodcast s pid row) pid)
    show ((processCats ⟨false, false, false, g⟩ pid m 0
        (deleteLinks (upsertPodcast s pid row) pid)).1, 0,
        (processCats ⟨false, false, false, g⟩ pid m 0
          (deleteLinks (upsertPodcast s pid row) pid)).2) = _
    rw [hiso]
  · induction jobs generalizing j s0 with
    | nil => rfl
    | cons job rest ih =>
      obtain ⟨pid', row', cats'⟩ := job
      simp only [update_all_podcast_details]
      rw [ih, List.length_cons]

/-- Witness for `transaction_rollback_scope`: an upsert failure leaves the
empty store untouched with one update error; a commit failure also rolls
back; a delete failure commits the upsert; an injected insert failure on the
first of two category entries commits the run over the surviving second
entry with one extra category-link error and zero update errors; and a
one-job run processes one job. -/
theorem transaction_rollback_scope_witness :
    processPodcastWrites ⟨true, false, false, fun _ => false⟩ emptyStore 1 row0 none =
        (emptyStore, 1, 0) ∧
      (processPodcastWrites ⟨false, false, true, fun _ => false⟩ emptyStore 1 row0 none).1 =
        emptyStore ∧
      processPodcastWrites ⟨false, true, false, fun _ => false⟩ emptyStore 1 row0 none =
        (upsertPodcast emptyStore 1 row0, 0, 1) ∧
      processPodcastWrites ⟨false, false, false, fun i => decide (i = 0)⟩ emptyStore 1 row0
          (some [("1", "A"), ("2", "B")]) =
        ((processCats noFail 1
            (keepCats (fun i => decide (i = 0)) [("1", "A"), ("2", "B")] 0) 0
            (deleteLinks (upsertPodcast emptyStore 1 row0) 1)).1,
          0,
          (processCats noFail 1
              (keepCats (fun i => decide (i = 0)) [("1", "A"), ("2", "B")] 0) 0
              (deleteLinks (upsertPodcast emptyStore 1 row0) 1)).2 +
            failCount (fun i => decide (i = 0)) [("1", "A"), ("2", "B")] 0) ∧
      keepCats (fun i => decide (i = 0)) [("1", "A"), ("2", "B")] 0 = [("2", "B")] ∧
      failCount (fun i => decide (i = 0)) [("1", "A"), ("2", "B")] 0 = 1 ∧
      (update_all_podcast_details (fun _ => noFail) [(1, row0, none)] 0 emptyStore).2.2.2 = 1 :=
  ⟨(transaction_rollback_scope ⟨true, false, false, fun _ => false⟩ emptyStore 1 row0 none
      (fun _ => noFail) [(1, row0, none)] 0 emptyStore).1 rfl,
    ((transaction_rollback_scope ⟨false, false, true, fun _ => false⟩ emptyStore 1 row0 none
      (fun _ => noFail) [(1, row0, none)] 0 emptyStore).2.1 rfl rfl).1,
    (transaction_rollback_scope ⟨false, true, false, fun _ => false⟩ emptyStore 1 row0 none
      (fun _ => noFail) [(1, row0, none)] 0 emptyStore).2.2.1 rfl rfl rfl,
    (transaction_rollback_scope ⟨false, false, false, fun i => decide (i = 0)⟩ emptyStore 1 row0
      none (fun _ => noFail) [(1, row0, none)] 0 emptyStore).2.2.2.1 rfl rfl rfl
      [("1", "A"), ("2", "B")],
    by decide,
    by decide,
    (transaction_rollback_scope ⟨false, true, false, fun _ => false⟩ emptyStore 1 row0 none
      (fun _ => noFail) [(1, row0, none)] 0 emptyStore).2.2.2.2⟩

/-- Claim C3 as stated is false: a failure of the category-link delete (a
write failure inside the podcast's transaction) does not roll the transaction
back — the upserted `Podcasts` row is committed, the store changes, and the
update-error counter stays at zero (only the category-link counter is
bumped). -/
theorem delete_failure_commits_counterexample :
    processPodcastWrites ⟨false, true, false, fun _ => false⟩ emptyStore 1 row0 none =
        ({ podcasts := [(1, row0)], categories := [], podcastCategories := [] }, 0, 1) ∧
      ({ podcasts := [(1, row0)], categories := [], podcastCategories := [] } : Store) ≠
        emptyStore :=
  ⟨rfl, by decide⟩

/-- Under no injected failures, if no category name of the map collides with a
differently-numbered category (existing or introduced by the map itself), the
category loop leaves the podcast table untouched and ends with exactly the
links of the starting store plus the map's well-formed category ids. -/
lemma processCats_noFail_links (pid : Int) :
    ∀ (m : List (String × String)) (i : ℕ) (s : Store),
      (s.podcasts.any fun p => decide (p.1 = pid)) = true →
      (∀ p ∈ m, p.1 ≠ "" → p.2 ≠ "" → ∀ q ∈ s.categories, q.2 = p.2 →
        some q.1 = pyParseInt p.1) →
      (∀ p ∈ m, ∀ p' ∈ m, p.1 ≠ "" → p.2 ≠ "" → p'.1 ≠ "" → p'.2 ≠ "" →
        p.2 = p'.2 → pyParseInt p.1 = pyParseInt p'.1) →
      (processCats noFail pid m i s).1.podcasts = s.podcasts ∧
        (∀ cid : Int, (pid, cid) ∈ (processCats noFail pid m i s).1.podcastCategories ↔
          (pid, cid) ∈ s.podcastCategories ∨ cid ∈ wellFormedIds m) := by
  intro m
  induction m with
  | nil =>
    intro i s _ _ _
    exact ⟨rfl, fun cid => by simp [processCats, wellFormedIds]⟩
  | cons p rest ih =>
    obtain ⟨k, n⟩ := p
    intro i s hpod H1 H2
    have H1tail : ∀ p ∈ rest, p.1 ≠ "" → p.2 ≠ "" → ∀ q ∈ s.categories, q.2 = p.2 →
        some q.1 = pyParseInt p.1 :=
      fun p hp => H1 p (List.mem_cons_of_mem _ hp)
    have H2tail : ∀ p ∈ rest, ∀ p' ∈ rest, p.1 ≠ "" → p.2 ≠ "" → p'.1 ≠ "" → p'.2 ≠ "" →
        p.2 = p'.2 → pyParseInt p.1 = pyParseInt p'.1 :=
      fun p hp p' hp' => H2 p (List.mem_cons_of_mem _ hp) p' (List.mem_cons_of_mem _ hp')
    by_cases hkn : k = "" ∨ n = ""
    · unfold processCats
      rw [if_pos hkn]
      obtain ⟨hpods, hlinks⟩ := ih (i + 1) s hpod H1tail H2tail
      refine ⟨hpods, fun cid => ?_⟩
      rw [hlinks cid]
      have hwf : wellFormedIds ((k, n) :: rest) = wellFormedIds rest := by
        simp only [wellFormedIds, List.filterMap_cons, if_pos hkn]
      rw [hwf]
    · push_neg at hkn
      obtain ⟨hk, hn⟩ := hkn
      unfold processCats
      rw [if_neg (not_or.mpr ⟨hk, hn⟩)]
      cases hparse : pyParseInt k with
      | none =>
        dsimp only
        obtain ⟨hpods, hlinks⟩ := ih (i + 1) s hpod H1tail H2tail
        refine ⟨hpods, fun cid => ?_⟩
        rw [hlinks cid]
        have hwf : wellFormedIds ((k, n) :: rest) = wellFormedIds rest := by
          simp only [wellFormedIds, List.filterMap_cons, if_neg (not_or.mpr ⟨hk, hn⟩), hparse]
        rw [hwf]
      | some cid0 =>
        dsimp only
        rw [if_neg (by simp [noFail])]
        have hwf : wellFormedIds ((k, n) :: rest) = cid0 :: wellFormedIds rest := by
          simp only [wellFormedIds, List.filterMap_cons, if_neg (not_or.mpr ⟨hk, hn⟩), hparse]
        have hs1pods : (insertOrIgnoreCategory s cid0 n).podcasts = s.podcasts := by
          unfold insertOrIgnoreCategory; split <;> rfl
        have hs1links : (insertOrIgnoreCategory s cid0 n).podcastCategories =
            s.podcastCategories := by
          unfold insertOrIgnoreCategory; split <;> rfl
        have hs1catMem : ∀ q ∈ (insertOrIgnoreCategory s cid0 n).categories,
            q ∈ s.categories ∨ q = (cid0, n) := by
          unfold insertOrIgnoreCategory
          split
          · exact fun q hq => Or.inl hq
          · intro q hq
            rcases List.mem_append.mp hq with h | h
            · exact Or.inl h
            · exact Or.inr (List.mem_singleton.mp h)
        have hheadmem : (k, n) ∈ (k, n) :: rest := List.mem_cons_self _ _
        have hs1cat : ((insertOrIgnoreCategory s cid0 n).categories.any
            fun q => decide (q.1 = cid0)) = true := by
          unfold insertOrIgnoreCategory
          split
          case isTrue hany =>
            obtain ⟨q, hq, hq2⟩ := List.any_eq_true.mp hany
            rcases of_decide_eq_true hq2 with h | h
            · exact List.any_eq_true.mpr ⟨q, hq, by simp [h]⟩
            · have hq1 := H1 (k, n) hheadmem hk hn q hq h
              rw [hparse] at hq1
              exact List.any_eq_true.mpr ⟨q, hq, by simp [Option.some_inj.mp hq1]⟩
          case isFalse =>
            exact List.any_eq_true.mpr ⟨(cid0, n), by simp, by simp⟩
        have hpod1 : ((insertOrIgnoreCategory s cid0 n).podcasts.any
            fun p => decide (p.1 = pid)) = true := by
          rw [hs1pods]; exact hpod
        have hcond : (((insertOrIgnoreCategory s cid0 n).podcasts.any
              fun p => decide (p.1 = pid)) &&
            ((insertOrIgnoreCategory s cid0 n).categories.any
              fun q => decide (q.1 = cid0))) = true := by
          rw [Bool.and_eq_true]; exact ⟨hpod1, hs1cat⟩
        have H1rec : ∀ p ∈ rest, p.1 ≠ "" → p.2 ≠ "" →
            ∀ q ∈ (insertOrIgnoreCategory s cid0 n).categories, q.2 = p.2 →
              some q.1 = pyParseInt p.1 := by
          intro p hp hp1 hp2 q hq hqn
          rcases hs1catMem q hq with h | h
          · exact H1tail p hp hp1 hp2 q h hqn
          · subst h
            have h2 := H2 (k, n) hheadmem p (List.mem_cons_of_mem _ hp) hk hn hp1 hp2 hqn
            rw [hparse] at h2
            exact h2
        by_cases hdup : ((insertOrIgnoreCategory s cid0 n).podcastCategories.any
            fun q => decide (q = (pid, cid0))) = true
        · have hfk : insertLinkFK (insertOrIgnoreCategory s cid0 n) pid cid0 =
              some (insertOrIgnoreCategory s cid0 n) := by
            unfold insertLinkFK
            rw [if_pos hcond, if_pos hdup]
          rw [hfk]
          obtain ⟨hpods, hlinks⟩ := ih (i + 1) (insertOrIgnoreCategory s cid0 n) hpod1 H1rec H2tail
          refine ⟨hpods.trans hs1pods, fun cid => ?_⟩
          rw [hlinks cid, hs1links, hwf]
          have hmem : (pid, cid0) ∈ s.podcastCategories := by
            obtain ⟨q, hq, hq2⟩ := List.any_eq_true.mp hdup
            rw [hs1links] at hq
            rwa [of_decide_eq_true hq2] at hq
          constructor
          · rintro (h | h)
            · exact Or.inl h
            · exact Or.inr (List.mem_cons_of_mem _ h)
          · rintro (h | h)
            · exact Or.inl h
            · rcases List.mem_cons.mp h with h | h
              · exact Or.inl (by rwa [h])
              · exact Or.inr h
        · have hfk : insertLinkFK (insertOrIgnoreCategory s cid0 n) pid cid0 =
              some { insertOrIgnoreCategory s cid0 n with
                podcastCategories :=
                  (insertOrIgnoreCategory s cid0 n).podcastCategories ++ [(pid, cid0)] } := by
            unfold insertLinkFK
            rw [if_pos hcond, if_neg hdup]
          rw [hfk]
          have hpod2 : (({ insertOrIgnoreCategory s cid0 n with
              podcastCategories :=
                (insertOrIgnoreCategory s cid0 n).podcastCategories ++ [(pid, cid0)] } :
                Store).podcasts.any fun p => decide (p.1 = pid)) = true := hpod1
          obtain ⟨hpods, hlinks⟩ := ih (i + 1) _ hpod2 H1rec H2tail
          refine ⟨hpods.trans hs1pods, fun cid => ?_⟩
          rw [hlinks cid, hwf]
          have hsplit : ∀ cid : Int,
              (pid, cid) ∈ (insertOrIgnoreCategory s cid0 n).podcastCategories ++ [(pid, cid0)] ↔
                (pid, cid) ∈ s.podcastCategories ∨ cid = cid0 := by
            intro cid
            rw [List.mem_append, hs1links, List.mem_singleton]
            constructor
            · rintro (h | h)
              · exact Or.inl h
              · exact Or.inr (by injection h)
            · rintro (h | h)
              · exact Or.inl h
              · exact Or.inr (by rw [h])
          rw [hsplit cid]
          constructor
          · rintro ((h | h) | h)
            · exact Or.inl h
            · exact Or.inr (h ▸ List.mem_cons_self _ _)
            · exact Or.inr (List.mem_cons_of_mem _ h)
          · rintro (h | h)
            · exact Or.inl (Or.inl h)
            · rcases List.mem_cons.mp h with h | h
              · exact Or.inl (Or.inr h)
              · exact Or.inr h

/-- Claim C4 (amended): re-running the per-podcast writes with a new category
map, after a run with an old map, leaves exactly the new map's well-formed
category ids linked to the podcast (old links fully removed, malformed
entries skipped without aborting the rest), PROVIDED no category name of the
new map is already held by a differently-numbered category (in the store left
by the old run, or within the new map itself); such a collision makes the
`INSERT OR IGNORE` on `Categories` a silent no-op and the link insert a
foreign-key violation, so that id ends up unlinked. -/
theorem category_links_replaced_exactly
    (s0 : Store) (pid : Int) (row row' : PodcastRow) (old new : List (String × String))
    (s1 : Store)
    (_hs1 : s1 = (processPodcastWrites noFail s0 pid row (some old)).1)
    (H1 : ∀ p ∈ new, p.1 ≠ "" → p.2 ≠ "" → ∀ q ∈ s1.categories, q.2 = p.2 →
      some q.1 = pyParseInt p.1)
    (H2 : ∀ p ∈ new, ∀ p' ∈ new, p.1 ≠ "" → p.2 ≠ "" → p'.1 ≠ "" → p'.2 ≠ "" →
      p.2 = p'.2 → pyParseInt p.1 = pyParseInt p'.1) :
    ∀ cid : Int,
      ((pid, cid) ∈ (processPodcastWrites noFail s1 pid row' (some new)).1.podcastCategories ↔
        cid ∈ wellFormedIds new) := by
  intro cid
  have hred : (processPodcastWrites noFail s1 pid row' (some new)).1 =
      (processCats noFail pid new 0 (deleteLinks (upsertPodcast s1 pid row') pid)).1 := rfl
  have hpod : ((deleteLinks (upsertPodcast s1 pid row') pid).podcasts.any
      fun p => decide (p.1 = pid)) = true := by
    simp [deleteLinks, upsertPodcast]
  have hcats : (deleteLinks (upsertPodcast s1 pid row') pid).categories = s1.categories := rfl
  have H1base : ∀ p ∈ new, p.1 ≠ "" → p.2 ≠ "" →
      ∀ q ∈ (deleteLinks (upsertPodcast s1 pid row') pid).categories, q.2 = p.2 →
        some q.1 = pyParseInt p.1 := by
    rw [hcats]; exact H1
  obtain ⟨-, hlinks⟩ :=
    processCats_noFail_links pid new 0 (deleteLinks (upsertPodcast s1 pid row') pid)
      hpod H1base H2
  rw [hred, hlinks cid]
  have hnot : (pid, cid) ∉ (deleteLinks (upsertPodcast s1 pid row') pid).podcastCategories := by
    intro hmem
    simp [deleteLinks, List.mem_filter] at hmem
  simp [hnot]

/-- Witness for `category_links_replaced_exactly`: after a run linking
category 1 named `A`, a second run with map `{"2": "B"}` links exactly
category 2. -/
theorem category_links_replaced_exactly_witness :
    (7, 2) ∈ (processPodcastWrites noFail
        (processPodcastWrites noFail emptyStore 7 row0 (some [("1", "A")])).1
        7 row0 (some [("2", "B")])).1.podcastCategories ∧
      wellFormedIds [("2", "B")] = [2] :=
  ⟨(category_links_replaced_exactly emptyStore 7 row0 row0 [("1", "A")] [("2", "B")]
      (processPodcastWrites noFail emptyStore 7 row0 (some [("1", "A")])).1
      rfl (by decide) (by decide) 2).mpr (by decide),
    rfl⟩

/-- Claim C4 as stated is false on a category-name collision: after a run
with map `{"1": "News"}`, re-running with map `{"2": "News"}` leaves NO link
for the podcast, although `2` is a well-formed category id of the new map —
the `INSERT OR IGNORE` into `Categories` is ignored because the name `News`
is already taken by id 1, and the link insert then fails its foreign key. -/
theorem category_name_collision_counterexample :
    (processPodcastWrites noFail
        (processPodcastWrites noFail emptyStore 7 row0 (some [("1", "News")])).1
        7 row0 (some [("2", "News")])).1.podcastCategories = [] ∧
      wellFormedIds [("2", "News")] = [2] :=
  ⟨rfl, rfl⟩

/-! ### Spreadsheet publisher (`update_gsheet.py`, lines 62-171)

The per-tab loop wraps each configured (query, worksheet) pair in a
`try`/`except` with four clauses: `sqlite3.Error`, `gspread.exceptions.APIError`,
`requests.exceptions.InvalidJSONError`, `Exception`.  The module never imports
`requests`, so when an exception matches neither of the first two clauses,
evaluating the third clause's class expression raises a `NameError`; that
`NameError` escapes the per-tab handler, is caught by the function-level
handler, and the remaining tabs are never processed.  A missing worksheet is
handled by the inner `try` around `spreadsheet.worksheet` and skips only that
tab. -/

/-- One entry of `QUERY_CONFIGS`. -/
structure SheetConfig where
  query : String
  worksheet_name : String
deriving DecidableEq

/-- The five configured views and target tabs. -/
def QUERY_CONFIGS : List SheetConfig :=
  [⟨"SELECT * FROM vw_CurrentPodcastDetailsWithCategories", "Top100List"⟩,
    ⟨"SELECT * FROM vw_NewEntries", "NewEntries"⟩,
    ⟨"SELECT * FROM vw_PlatformOverlap", "PlatformOverlap"⟩,
    ⟨"SELECT * FROM vw_RankChanges", "RankChanges"⟩,
    ⟨"SELECT * FROM vw_TimeOnList", "TimeOnList"⟩]

/-- How processing one tab turns out, classified by which handler would
receive the raised exception (if any). -/
inductive TabOutcome where
  | success
  | queryError
  | worksheetMissing
  | apiError
  | otherException
deriving DecidableEq

/-- What the loop recorded for one tab. -/
inductive TabResult where
  | written
  | skippedMissing
  | failedQuery
  | failedApi
deriving DecidableEq

/-- The per-tab loop of `update_multiple_google_sheets` (lines 98-154) over an
explicit outcome per configuration.  A `sqlite3.Error`, a Sheets `APIError`
and a missing worksheet are isolated to their tab; any other exception (for
example the `requests.exceptions.InvalidJSONError` a write can raise) makes
the handler search evaluate the unimported name `requests` (line 151), and
the resulting `NameError` aborts the loop: the tab is not recorded and no
further configuration is processed. -/
def update_multiple_google_sheets (outcome : SheetConfig → TabOutcome) :
    List SheetConfig → List (SheetConfig × TabResult)
  | [] => []
  | c :: cs =>
    match outcome c with
    | .success => (c, .written) :: update_multiple_google_sheets outcome cs
    | .queryError => (c, .failedQuery) :: update_multiple_google_sheets outcome cs
    | .worksheetMissing => (c, .skippedMissing) :: update_multiple_google_sheets outcome cs
    | .apiError => (c, .failedApi) :: update_multiple_google_sheets outcome cs
    | .otherException => []

/-- Claim C9 concerns a code bug: when the first tab's write raises an
exception outside the two importable handler classes (e.g.
`requests.exceptions.InvalidJSONError`), the unimported `requests` name makes
the whole loop abort — none of the four remaining configured tabs is
processed or written, against the intended (and spec-stated) per-tab
isolation.  With no such exception, all five tabs are written. -/
theorem tab_failure_aborts_run :
    update_multiple_google_sheets
        (fun c => if c.worksheet_name = "Top100List" then TabOutcome.otherException
          else TabOutcome.success) QUERY_CONFIGS = [] ∧
      update_multiple_google_sheets (fun _ => TabOutcome.success) QUERY_CONFIGS =
        QUERY_CONFIGS.map fun c => (c, TabResult.written) :=
  ⟨rfl, rfl⟩

end PodcastDashboard
